import Mathlib

/-!
Shallow embedding of the `NFTMarketplace` and `NFT` Solidity contracts
(`contracts/src/Marketplace.sol`, `contracts/src/NFT.sol`) of the
NftMarketplace01 repository.

Addresses and token ids are natural numbers; the zero address is `0`.
A state-mutating entry point is embedded as a `...Body` function returning
`Except MarketError MarketState` (the sequence of storage writes performed by
the Solidity function body, in source order), together with a transactional
wrapper that models the EVM's revert semantics: when the body fails, every
storage write and value transfer of the call is rolled back and the pre-call
state is observed.

External collaborators (whether an address accepts plain value transfers,
and whether a receiver contract accepts an ERC721 via `onERC721Received`)
are modelled by an environment `Env`.
-/

/-- An address (or token id): a natural number, `0` is the zero address. -/
abbrev Addr := Nat

/-- `NFTMarketplace.Listing`: seller, price (wei) and active flag. -/
structure Listing where
  seller : Addr
  price : Nat
  isActive : Bool
deriving DecidableEq

/-- The custom errors of `Marketplace.sol` and `NFT.sol`, plus the
OpenZeppelin `Ownable` / `ERC721` errors the contracts can surface. -/
inductive MarketError where
  | PriceMustBeGreaterThanZero
  | NotTokenOwner
  | NotApprovedForMarketplace
  | ListingNotActive
  | CannotBuyOwnNFT
  | IncorrectPaymentAmount
  | FeeExceedsMaximum
  | TransferFailed
  | InvalidNFTContract
  | NotAuthorizedToMint
  | InvalidMarketplaceAddress
  | OwnableUnauthorizedAccount
  | ERC721InvalidReceiver
  | ERC721InvalidSender
  | ERC721NonexistentToken
  | ERC721IncorrectOwner
  | ERC721InsufficientApproval
deriving DecidableEq

/-- Behaviour of external accounts: whether an address accepts a plain
ETH transfer (`call{value: ...}("")` returns success), and whether it
accepts an ERC721 token (`onERC721Received`, trivially true for EOAs). -/
structure Env where
  acceptsETH : Addr → Bool
  acceptsNFT : Addr → Bool

/-- The combined storage of the deployed `NFTMarketplace` contract and its
`NFT` contract, plus the ETH balances of all addresses. -/
structure MarketState where
  /-- `address(this)` of the marketplace contract. -/
  marketAddr : Addr
  /-- `Ownable.owner()` of the marketplace (the operator). -/
  owner : Addr
  /-- `marketplaceFee`, in basis points (initially 250). -/
  marketplaceFee : Nat
  /-- `listings` mapping; unlisted ids hold the zero listing. -/
  listings : Nat → Listing
  /-- `listedTokenIds` array. -/
  listedTokenIds : List Nat
  /-- `_listedTokenIndex` mapping. -/
  listedTokenIndex : Nat → Nat
  /-- `_hasBeenListed` mapping. -/
  hasBeenListed : Nat → Bool
  /-- `NFT.marketplaceAddress`. -/
  nftMarketplaceAddress : Addr
  /-- `Ownable.owner()` of the NFT contract. -/
  nftOwner : Addr
  /-- `NFT._tokenIdCounter`. -/
  tokenIdCounter : Nat
  /-- ERC721 `_owners` mapping; `0` means the token does not exist. -/
  owners : Nat → Addr
  /-- ERC721 `_tokenApprovals` mapping; `0` means no approval. -/
  tokenApprovals : Nat → Addr
  /-- ERC721 `_operatorApprovals` mapping. -/
  operatorApprovals : Addr → Addr → Bool
  /-- `ERC721URIStorage._tokenURIs` mapping. -/
  tokenURIs : Nat → String
  /-- ETH balance of every address (`marketAddr` included). -/
  bal : Addr → Nat

/-- A plain value transfer of `v` wei from `src` to `dst`
(`src`'s balance is debited first, then `dst`'s credited). -/
def sendETH (s : MarketState) (src dst v : Nat) : MarketState :=
  let b1 := fun a => if a = src then s.bal src - v else s.bal a
  { s with bal := fun a => if a = dst then b1 dst + v else b1 a }

/-- OpenZeppelin ERC721 `transferFrom(src, dst, tokenId)` executed with
`msg.sender = spender`: receiver must be nonzero, the spender must be the
owner, an approved-for-all operator of the owner, or the token's approved
address, and `src` must be the current owner.  On success ownership moves
to `dst` and the per-token approval is cleared. -/
def transferFrom (s : MarketState) (spender src dst tokenId : Nat) :
    Except MarketError MarketState :=
  if dst = 0 then .error .ERC721InvalidReceiver
  else if spender ≠ 0 ∧ (s.owners tokenId = spender ∨
      s.operatorApprovals (s.owners tokenId) spender = true ∨
      s.tokenApprovals tokenId = spender) then
    if s.owners tokenId ≠ src then .error .ERC721IncorrectOwner
    else .ok { s with
      owners := fun t => if t = tokenId then dst else s.owners t,
      tokenApprovals := fun t => if t = tokenId then 0 else s.tokenApprovals t }
  else if s.owners tokenId = 0 then .error .ERC721NonexistentToken
  else .error .ERC721InsufficientApproval

/-- ERC721 `safeTransferFrom`: `transferFrom` plus the
`onERC721Received` acceptance check on the receiver. -/
def safeTransferFrom (env : Env) (s : MarketState)
    (spender src dst tokenId : Nat) : Except MarketError MarketState :=
  match transferFrom s spender src dst tokenId with
  | .error e => .error e
  | .ok s' =>
      if env.acceptsNFT dst = true then .ok s'
      else .error .ERC721InvalidReceiver

/-- `NFT.mintTo(dst, uri)` executed with `msg.sender = spender`
(`NFT.mint(uri)` is the same body with `dst := tx.origin`): only the
marketplace or the NFT contract owner may mint; `_safeMint` requires a
nonzero receiver that accepts the token and a not-yet-minted id.  Returns
the new state and the minted token id. -/
def mintTo (env : Env) (s : MarketState) (spender dst : Nat) (uri : String) :
    Except MarketError (MarketState × Nat) :=
  if spender ≠ s.nftMarketplaceAddress ∧ spender ≠ s.nftOwner then
    .error .NotAuthorizedToMint
  else if dst = 0 then .error .ERC721InvalidReceiver
  else if s.owners s.tokenIdCounter ≠ 0 then .error .ERC721InvalidSender
  else if env.acceptsNFT dst = false then .error .ERC721InvalidReceiver
  else .ok ({ s with
      tokenIdCounter := s.tokenIdCounter + 1,
      owners := fun t => if t = s.tokenIdCounter then dst else s.owners t,
      tokenURIs := fun t => if t = s.tokenIdCounter then uri else s.tokenURIs t },
    s.tokenIdCounter)

/-- Body of `NFTMarketplace.mintNFT(uri)` called by `caller` in a
transaction originated by `origin`: it forwards to `nftContract.mint(uri)`,
whose `msg.sender` is the marketplace and which mints to `tx.origin`. -/
def mintNFTBody (env : Env) (s : MarketState) (_caller origin : Addr)
    (uri : String) : Except MarketError (MarketState × Nat) :=
  mintTo env s s.marketAddr origin uri

/-- Body of `NFTMarketplace.mintAndList(uri, price)` called by `caller`:
price must be positive; mints to the caller via `nftContract.mintTo`,
writes the listing row and unconditionally appends the fresh id to
`listedTokenIds`. -/
def mintAndListBody (env : Env) (s : MarketState) (caller : Addr)
    (uri : String) (price : Nat) : Except MarketError (MarketState × Nat) :=
  if price = 0 then .error .PriceMustBeGreaterThanZero
  else
    match mintTo env s s.marketAddr caller uri with
    | .error e => .error e
    | .ok (s1, tokenId) =>
        .ok ({ s1 with
          listings := fun t =>
            if t = tokenId then ⟨caller, price, true⟩ else s1.listings t,
          listedTokenIndex := fun t =>
            if t = tokenId then s1.listedTokenIds.length
            else s1.listedTokenIndex t,
          listedTokenIds := s1.listedTokenIds ++ [tokenId],
          hasBeenListed := fun t =>
            if t = tokenId then true else s1.hasBeenListed t },
        tokenId)

/-- Body of `NFTMarketplace.listNFT(tokenId, price)` called by `caller`:
price positive, caller must own the token (`ownerOf` reverts for a
nonexistent id), the marketplace must be approved; writes the listing row
and appends to `listedTokenIds` only if the id was never listed. -/
def listNFTBody (s : MarketState) (caller tokenId price : Nat) :
    Except MarketError MarketState :=
  if price = 0 then .error .PriceMustBeGreaterThanZero
  else if s.owners tokenId = 0 then .error .ERC721NonexistentToken
  else if s.owners tokenId ≠ caller then .error .NotTokenOwner
  else if s.tokenApprovals tokenId ≠ s.marketAddr ∧
      s.operatorApprovals caller s.marketAddr = false then
    .error .NotApprovedForMarketplace
  else
    let s1 := { s with listings := fun t =>
      if t = tokenId then ⟨caller, price, true⟩ else s.listings t }
    if s1.hasBeenListed tokenId = true then .ok s1
    else .ok { s1 with
      listedTokenIndex := fun t =>
        if t = tokenId then s1.listedTokenIds.length else s1.listedTokenIndex t,
      listedTokenIds := s1.listedTokenIds ++ [tokenId],
      hasBeenListed := fun t =>
        if t = tokenId then true else s1.hasBeenListed t }

/-- Body of `NFTMarketplace.buyNFT(tokenId)` called by `caller` with
`msg.value = value`.  The attached value enters the contract, the three
checks run, the listing is deactivated (checks-effects-interactions),
fee and proceeds are computed with integer floor division, the NFT is
transferred to the buyer, and the seller is paid. -/
def buyNFTBody (env : Env) (s : MarketState) (caller value tokenId : Nat) :
    Except MarketError MarketState :=
  let s0 := sendETH s caller s.marketAddr value
  let l := s0.listings tokenId
  if l.isActive = false then .error .ListingNotActive
  else if caller = l.seller then .error .CannotBuyOwnNFT
  else if value ≠ l.price then .error .IncorrectPaymentAmount
  else
    let s1 := { s0 with listings := fun t =>
      if t = tokenId then { l with isActive := false } else s0.listings t }
    let fee := l.price * s1.marketplaceFee / 10000
    let sellerProceeds := l.price - fee
    match safeTransferFrom env s1 s1.marketAddr l.seller caller tokenId with
    | .error e => .error e
    | .ok s2 =>
        if env.acceptsETH l.seller = true then
          .ok (sendETH s2 s2.marketAddr l.seller sellerProceeds)
        else .error .TransferFailed

/-- Transactional `buyNFT`: EVM revert semantics — on failure the pre-call
state is returned together with the error. -/
def buyNFT (env : Env) (s : MarketState) (caller value tokenId : Nat) :
    MarketState × Option MarketError :=
  match buyNFTBody env s caller value tokenId with
  | .ok s' => (s', none)
  | .error e => (s, some e)

/-- Body of `NFTMarketplace.delistNFT(tokenId)` called by `caller`. -/
def delistNFTBody (s : MarketState) (caller tokenId : Nat) :
    Except MarketError MarketState :=
  let l := s.listings tokenId
  if l.isActive = false then .error .ListingNotActive
  else if l.seller ≠ caller then .error .NotTokenOwner
  else .ok { s with listings := fun t =>
    if t = tokenId then { l with isActive := false } else s.listings t }

/-- Transactional `delistNFT`. -/
def delistNFT (s : MarketState) (caller tokenId : Nat) :
    MarketState × Option MarketError :=
  match delistNFTBody s caller tokenId with
  | .ok s' => (s', none)
  | .error e => (s, some e)

/-- Body of `NFTMarketplace.updateListingPrice(tokenId, newPrice)`. -/
def updateListingPriceBody (s : MarketState) (caller tokenId newPrice : Nat) :
    Except MarketError MarketState :=
  if newPrice = 0 then .error .PriceMustBeGreaterThanZero
  else
    let l := s.listings tokenId
    if l.isActive = false then .error .ListingNotActive
    else if l.seller ≠ caller then .error .NotTokenOwner
    else .ok { s with listings := fun t =>
      if t = tokenId then { l with price := newPrice } else s.listings t }

/-- Transactional `updateListingPrice`. -/
def updateListingPrice (s : MarketState) (caller tokenId newPrice : Nat) :
    MarketState × Option MarketError :=
  match updateListingPriceBody s caller tokenId newPrice with
  | .ok s' => (s', none)
  | .error e => (s, some e)

/-- Body of `NFTMarketplace.withdrawFees(recipient)` called by `caller`:
`onlyOwner`, then the whole contract balance is sent to the recipient;
a zero balance and a rejected transfer both revert with the contract's
`TransferFailed` error. -/
def withdrawFeesBody (env : Env) (s : MarketState) (caller recipient : Addr) :
    Except MarketError MarketState :=
  if caller ≠ s.owner then .error .OwnableUnauthorizedAccount
  else
    let balance := s.bal s.marketAddr
    if balance = 0 then .error .TransferFailed
    else if env.acceptsETH recipient = true then
      .ok (sendETH s s.marketAddr recipient balance)
    else .error .TransferFailed

/-- Transactional `withdrawFees`. -/
def withdrawFees (env : Env) (s : MarketState) (caller recipient : Addr) :
    MarketState × Option MarketError :=
  match withdrawFeesBody env s caller recipient with
  | .ok s' => (s', none)
  | .error e => (s, some e)

/-- The `(tokenId, seller, price)` triples of the active listings of a list
of token ids, in list order — the reference ("spec-side") enumeration that
`getActiveListings` is checked against. -/
def activeOf (s : MarketState) (ids : List Nat) : List (Nat × Addr × Nat) :=
  ids.filterMap fun t =>
    if (s.listings t).isActive = true then
      some (t, (s.listings t).seller, (s.listings t).price)
    else none

/-- All active listings of the marketplace, in `listedTokenIds` order. -/
def activeTriples (s : MarketState) : List (Nat × Addr × Nat) :=
  activeOf s s.listedTokenIds

/-- The population loop of `NFTMarketplace.getActiveListings`: walk the
index, skip inactive ids, start collecting once `cur` (the number of active
entries already seen) reaches `start`, and stop once `res` (the number of
collected entries) reaches `size`. -/
def gatherActive (s : MarketState) :
    List Nat → Nat → Nat → Nat → Nat → List (Nat × Addr × Nat)
  | [], _, _, _, _ => []
  | id :: rest, start, size, cur, res =>
      if res < size then
        if (s.listings id).isActive = true then
          if start ≤ cur then
            (id, (s.listings id).seller, (s.listings id).price) ::
              gatherActive s rest start size (cur + 1) (res + 1)
          else gatherActive s rest start size (cur + 1) res
        else gatherActive s rest start size cur res
      else []

/-- `NFTMarketplace.getActiveListings(offset, limit)`: counts the active
listings, clamps the window, then runs the population loop; returns the
three parallel result arrays. -/
def getActiveListings (s : MarketState) (offset limit : Nat) :
    List Nat × List Addr × List Nat :=
  let activeCount :=
    s.listedTokenIds.countP fun t => (s.listings t).isActive
  let endIndex := min (offset + limit) activeCount
  let resultSize := endIndex - offset
  let triples := gatherActive s s.listedTokenIds offset resultSize 0 0
  (triples.map (·.1), triples.map (·.2.1), triples.map (·.2.2))

/-- `NFTMarketplace.getActiveListingCount()`: scan of `listedTokenIds`
counting the ids whose listing is active. -/
def getActiveListingCount (s : MarketState) : Nat :=
  s.listedTokenIds.countP fun t => (s.listings t).isActive

/-- The listing/minting operations of claim C5. -/
inductive Op where
  | mintAndList (caller : Addr) (uri : String) (price : Nat)
  | listNFT (caller tokenId price : Nat)

/-- Apply one operation as a transaction: a failing call leaves the state
unchanged (EVM revert). -/
def applyOp (env : Env) (s : MarketState) : Op → MarketState
  | .mintAndList c u p =>
      match mintAndListBody env s c u p with
      | .ok (s', _) => s'
      | .error _ => s
  | .listNFT c t p =>
      match listNFTBody s c t p with
      | .ok s' => s'
      | .error _ => s

/-- Run a sequence of operations. -/
def runOps (env : Env) (s : MarketState) (ops : List Op) : MarketState :=
  ops.foldl (applyOp env) s

/-- The listing-index well-formedness invariant maintained by the
contract: no duplicate index entries, `_hasBeenListed` coincides with index
membership, every indexed or minted id is below the token counter, and
every active listing has been indexed. -/
def IndexInv (s : MarketState) : Prop :=
  s.listedTokenIds.Nodup ∧
  (∀ t, s.hasBeenListed t = true ↔ t ∈ s.listedTokenIds) ∧
  (∀ t ∈ s.listedTokenIds, t < s.tokenIdCounter) ∧
  (∀ t, s.owners t ≠ 0 → t < s.tokenIdCounter) ∧
  (∀ t, (s.listings t).isActive = true → s.hasBeenListed t = true)

/-- The state right after `new NFTMarketplace()` deployed by `deployer` at
address `marketAddr` (the constructor deploys the `NFT` contract with the
marketplace as both its authorized minter and its `Ownable` owner), with
ambient ETH balances `bal0`. -/
def initState (deployer marketAddr : Addr) (bal0 : Addr → Nat) : MarketState :=
  { marketAddr := marketAddr
    owner := deployer
    marketplaceFee := 250
    listings := fun _ => ⟨0, 0, false⟩
    listedTokenIds := []
    listedTokenIndex := fun _ => 0
    hasBeenListed := fun _ => false
    nftMarketplaceAddress := marketAddr
    nftOwner := marketAddr
    tokenIdCounter := 0
    owners := fun _ => 0
    tokenApprovals := fun _ => 0
    operatorApprovals := fun _ _ => false
    tokenURIs := fun _ => ""
    bal := bal0 }

/-- An environment in which every address accepts ETH and NFTs. -/
def envAll : Env := ⟨fun _ => true, fun _ => true⟩

/-- An environment in which address 5 rejects plain ETH transfers
(a seller whose receive hook reverts) and everyone accepts NFTs. -/
def env1 : Env := ⟨fun a => decide (a ≠ 5), fun _ => true⟩

/-- A marketplace (deployed by 1 at address 2) holding one active listing:
token 0, seller 5, the given price; the token is owned by 5 and approved
for the marketplace. -/
def exListed (price : Nat) : MarketState :=
  { initState 1 2 (fun _ => 0) with
    listings := fun t => if t = 0 then ⟨5, price, true⟩ else ⟨0, 0, false⟩
    listedTokenIds := [0]
    hasBeenListed := fun t => decide (t = 0)
    tokenIdCounter := 1
    owners := fun t => if t = 0 then 5 else 0
    tokenApprovals := fun t => if t = 0 then 2 else 0 }

/-- `exListed 100` after the token was moved out-of-band to address 7:
the listing still records seller 5, but 7 owns the asset. -/
def exTransferred : MarketState :=
  { exListed 100 with owners := fun t => if t = 0 then 7 else 0 }

/-- A marketplace with six indexed tokens of which five are active
(token 1 is delisted): active order 0, 2, 3, 4, 5. -/
def exPage : MarketState :=
  { initState 1 2 (fun _ => 0) with
    listings := fun t =>
      if t = 0 then ⟨10, 100, true⟩
      else if t = 1 then ⟨11, 200, false⟩
      else if t = 2 then ⟨12, 300, true⟩
      else if t = 3 then ⟨13, 400, true⟩
      else if t = 4 then ⟨14, 500, true⟩
      else if t = 5 then ⟨15, 600, true⟩
      else ⟨0, 0, false⟩
    listedTokenIds := [0, 1, 2, 3, 4, 5]
    hasBeenListed := fun t => decide (t ≤ 5)
    tokenIdCounter := 6
    owners := fun t => if t ≤ 5 then 10 + t else 0 }

/-- Run wrapper for `mintNFT` (transaction semantics; the minted token id
is `0` on revert, unused). -/
def mintNFT (env : Env) (s : MarketState) (caller origin : Addr)
    (uri : String) : (MarketState × Nat) × Option MarketError :=
  match mintNFTBody env s caller origin uri with
  | .ok (s', tid) => ((s', tid), none)
  | .error e => ((s, 0), some e)

@[simp] lemma sendETH_listings (s : MarketState) (a b v : Nat) :
    (sendETH s a b v).listings = s.listings := rfl

@[simp] lemma sendETH_marketAddr (s : MarketState) (a b v : Nat) :
    (sendETH s a b v).marketAddr = s.marketAddr := rfl

@[simp] lemma sendETH_owner (s : MarketState) (a b v : Nat) :
    (sendETH s a b v).owner = s.owner := rfl

@[simp] lemma sendETH_marketplaceFee (s : MarketState) (a b v : Nat) :
    (sendETH s a b v).marketplaceFee = s.marketplaceFee := rfl

@[simp] lemma sendETH_listedTokenIds (s : MarketState) (a b v : Nat) :
    (sendETH s a b v).listedTokenIds = s.listedTokenIds := rfl

@[simp] lemma sendETH_hasBeenListed (s : MarketState) (a b v : Nat) :
    (sendETH s a b v).hasBeenListed = s.hasBeenListed := rfl

@[simp] lemma sendETH_owners (s : MarketState) (a b v : Nat) :
    (sendETH s a b v).owners = s.owners := rfl

@[simp] lemma sendETH_tokenIdCounter (s : MarketState) (a b v : Nat) :
    (sendETH s a b v).tokenIdCounter = s.tokenIdCounter := rfl

lemma sendETH_bal_congr {x y : MarketState} (hb : x.bal = y.bal)
    (a b v : Nat) : (sendETH x a b v).bal = (sendETH y a b v).bal := by
  simp [sendETH, hb]

lemma transferFrom_ok_parts {s s' : MarketState} {a b c t : Nat}
    (h : transferFrom s a b c t = .ok s') :
    s'.listings = s.listings ∧ s'.bal = s.bal ∧ s'.marketAddr = s.marketAddr ∧
    s'.owner = s.owner ∧ s'.marketplaceFee = s.marketplaceFee ∧
    s'.listedTokenIds = s.listedTokenIds ∧ s'.hasBeenListed = s.hasBeenListed ∧
    s'.tokenIdCounter = s.tokenIdCounter := by
  unfold transferFrom at h
  split_ifs at h
  injection h with h2
  subst h2
  exact ⟨rfl, rfl, rfl, rfl, rfl, rfl, rfl, rfl⟩

lemma safeTransferFrom_ok_parts {env : Env} {s s' : MarketState}
    {a b c t : Nat} (h : safeTransferFrom env s a b c t = .ok s') :
    s'.listings = s.listings ∧ s'.bal = s.bal ∧ s'.marketAddr = s.marketAddr ∧
    s'.owner = s.owner ∧ s'.marketplaceFee = s.marketplaceFee ∧
    s'.listedTokenIds = s.listedTokenIds ∧ s'.hasBeenListed = s.hasBeenListed ∧
    s'.tokenIdCounter = s.tokenIdCounter := by
  unfold safeTransferFrom at h
  cases htr : transferFrom s a b c t with
  | error e => rw [htr] at h; simp at h
  | ok s2 =>
      rw [htr] at h
      split_ifs at h
      injection h with h2
      subst h2
      exact transferFrom_ok_parts htr

lemma buyNFTBody_ok {env : Env} {s s' : MarketState}
    {caller value tokenId : Nat}
    (h : buyNFTBody env s caller value tokenId = .ok s') :
    (s.listings tokenId).isActive = true ∧
    caller ≠ (s.listings tokenId).seller ∧
    value = (s.listings tokenId).price ∧
    env.acceptsETH (s.listings tokenId).seller = true ∧
    s'.listings tokenId = { s.listings tokenId with isActive := false } ∧
    (∀ u, u ≠ tokenId → s'.listings u = s.listings u) ∧
    s'.listedTokenIds = s.listedTokenIds ∧
    s'.hasBeenListed = s.hasBeenListed ∧
    s'.marketAddr = s.marketAddr ∧
    s'.marketplaceFee = s.marketplaceFee ∧
    s'.bal = (sendETH (sendETH s caller s.marketAddr value) s.marketAddr
      (s.listings tokenId).seller
      ((s.listings tokenId).price -
        (s.listings tokenId).price * s.marketplaceFee / 10000)).bal := by
  unfold buyNFTBody at h
  simp only [sendETH_listings, sendETH_marketAddr, sendETH_marketplaceFee] at h
  split_ifs at h with h1 h2 h3 hpay
  · split at h
    · simp at h
    · rename_i s2 htr
      injection h with h4
      subst h4
      obtain ⟨pl, pb, pm, _, pf, pids, phb, _⟩ := safeTransferFrom_ok_parts htr
      refine ⟨by simpa using h1, h2, by omega, hpay, ?_, ?_, ?_, ?_, ?_, ?_, ?_⟩
      · show s2.listings tokenId = _
        rw [pl]; simp
      · intro u hu
        show s2.listings u = _
        rw [pl]; simp [hu]
      · exact pids.trans rfl
      · exact phb.trans rfl
      · exact pm.trans rfl
      · exact pf.trans rfl
      · show (sendETH s2 s2.marketAddr _ _).bal = _
        rw [pm]
        exact sendETH_bal_congr (pb.trans rfl) _ _ _
  · split at h
    · simp at h
    · simp at h

/-- C1: any failing `buyNFT` call — including a seller-payment rejection or
an asset-transfer failure occurring after the listing was already marked
inactive inside the call — leaves the whole marketplace state (the listing
row, asset ownership, the listing index, and all ETH balances) exactly as it
was before the call: the transactional wrapper models the EVM revert that
rolls back every write of the call. -/
theorem buyNFT_failure_atomic (env : Env) (s : MarketState)
    (caller value tokenId : Nat) (e : MarketError)
    (h : (buyNFT env s caller value tokenId).2 = some e) :
    (buyNFT env s caller value tokenId).1 = s ∧
    (buyNFT env s caller value tokenId).1.listings tokenId = s.listings tokenId ∧
    (buyNFT env s caller value tokenId).1.owners = s.owners ∧
    (buyNFT env s caller value tokenId).1.listedTokenIds = s.listedTokenIds ∧
    (buyNFT env s caller value tokenId).1.bal = s.bal := by
  unfold buyNFT at h ⊢
  cases hb : buyNFTBody env s caller value tokenId with
  | ok s1 => rw [hb] at h; simp at h
  | error e2 => exact ⟨rfl, rfl, rfl, rfl, rfl⟩

/-- Witness for C1: on a concrete listing whose seller rejects the payout,
`buyNFT` fails with `TransferFailed` after having deactivated the listing
internally, and the observed post-state is exactly the pre-state. -/
theorem buyNFT_failure_atomic_witness :
    (buyNFT env1 (exListed 100) 7 100 0).2 = some MarketError.TransferFailed ∧
    (buyNFT env1 (exListed 100) 7 100 0).1 = exListed 100 :=
  ⟨by decide,
   (buyNFT_failure_atomic env1 (exListed 100) 7 100 0
     MarketError.TransferFailed (by decide)).1⟩

/-- C3: `buyNFT` fails with `ListingNotActive` when the listing is inactive
(a never-listed id holds the zero listing, which is inactive), with
`CannotBuyOwnNFT` (the spec's `SelfPurchase`) when the caller is the
recorded seller, and with `IncorrectPaymentAmount` (the spec's
`WrongPaymentAmount`) when the attached value differs from the price in
either direction — each failure returning the untouched pre-state, so an
overpayment is rejected outright rather than accepted and refunded. -/
theorem buyNFT_check_errors (env : Env) (s : MarketState)
    (caller value tokenId : Nat) :
    ((s.listings tokenId).isActive = false →
      buyNFT env s caller value tokenId = (s, some MarketError.ListingNotActive)) ∧
    ((s.listings tokenId).isActive = true →
      caller = (s.listings tokenId).seller →
      buyNFT env s caller value tokenId = (s, some MarketError.CannotBuyOwnNFT)) ∧
    ((s.listings tokenId).isActive = true →
      caller ≠ (s.listings tokenId).seller →
      value ≠ (s.listings tokenId).price →
      buyNFT env s caller value tokenId =
        (s, some MarketError.IncorrectPaymentAmount)) := by
  refine ⟨fun h1 => ?_, fun h1 h2 => ?_, fun h1 h2 h3 => ?_⟩
  · simp [buyNFT, buyNFTBody, h1]
  · simp [buyNFT, buyNFTBody, h1, h2]
  · simp [buyNFT, buyNFTBody, h1, h2, h3]

/-- Witness for C3: on a concrete active listing (seller 5, price 100),
an inactive id yields `ListingNotActive`, a self-purchase yields
`CannotBuyOwnNFT`, and an overpayment yields `IncorrectPaymentAmount`. -/
theorem buyNFT_check_errors_witness :
    buyNFT envAll (exListed 100) 7 100 1 =
      (exListed 100, some MarketError.ListingNotActive) ∧
    buyNFT envAll (exListed 100) 5 100 0 =
      (exListed 100, some MarketError.CannotBuyOwnNFT) ∧
    buyNFT envAll (exListed 100) 7 150 0 =
      (exListed 100, some MarketError.IncorrectPaymentAmount) :=
  ⟨(buyNFT_check_errors envAll (exListed 100) 7 100 1).1 (by decide),
   (buyNFT_check_errors envAll (exListed 100) 5 100 0).2.1 (by decide) (by decide),
   (buyNFT_check_errors envAll (exListed 100) 7 150 0).2.2 (by decide)
     (by decide) (by decide)⟩

/-- C4: after a successful `buyNFT` the listing is inactive (it is
deactivated before any external transfer inside the call), and a second
`buyNFT` on the same token — any caller, any payment, any environment —
fails with the explicit `ListingNotActive` error, leaving the state
unchanged (no silent no-op). -/
theorem buyNFT_resale_blocked (env env2 : Env) (s : MarketState)
    (caller value tokenId caller2 value2 : Nat)
    (h : (buyNFT env s caller value tokenId).2 = none) :
    ((buyNFT env s caller value tokenId).1.listings tokenId).isActive = false ∧
    buyNFT env2 (buyNFT env s caller value tokenId).1 caller2 value2 tokenId =
      ((buyNFT env s caller value tokenId).1,
       some MarketError.ListingNotActive) := by
  obtain ⟨s', hb⟩ : ∃ s', buyNFTBody env s caller value tokenId = .ok s' := by
    unfold buyNFT at h
    cases hb : buyNFTBody env s caller value tokenId with
    | ok s1 => exact ⟨s1, rfl⟩
    | error e => rw [hb] at h; simp at h
  have hr : (buyNFT env s caller value tokenId).1 = s' := by
    unfold buyNFT; rw [hb]
  rw [hr]
  obtain ⟨_, _, _, _, hlist, _⟩ := buyNFTBody_ok hb
  have hin : (s'.listings tokenId).isActive = false := by rw [hlist]
  exact ⟨hin, by simp [buyNFT, buyNFTBody, hin]⟩

/-- Witness for C4: a concrete successful purchase of token 0 by 7, then a
second attempted purchase by 8 failing with `ListingNotActive`. -/
theorem buyNFT_resale_blocked_witness :
    ((buyNFT envAll (exListed 100) 7 100 0).1.listings 0).isActive = false ∧
    buyNFT envAll (buyNFT envAll (exListed 100) 7 100 0).1 8 100 0 =
      ((buyNFT envAll (exListed 100) 7 100 0).1,
       some MarketError.ListingNotActive) :=
  buyNFT_resale_blocked envAll envAll (exListed 100) 7 100 0 8 100 (by decide)

/-- C8: for an active listing, `delistNFT` and `updateListingPrice` succeed
exactly when the caller is the seller recorded in the listing, regardless
of who currently owns the asset (the state `s` is arbitrary, so the asset
may have left the seller's ownership); a non-seller caller — current asset
owner included — is rejected with the contract's `NotTokenOwner` error. -/
theorem delist_update_seller_only (s : MarketState)
    (caller tokenId newPrice : Nat)
    (hact : (s.listings tokenId).isActive = true) (hp : newPrice ≠ 0) :
    ((delistNFT s caller tokenId).2 = none ↔
      caller = (s.listings tokenId).seller) ∧
    (caller ≠ (s.listings tokenId).seller →
      delistNFT s caller tokenId = (s, some MarketError.NotTokenOwner)) ∧
    ((updateListingPrice s caller tokenId newPrice).2 = none ↔
      caller = (s.listings tokenId).seller) ∧
    (caller ≠ (s.listings tokenId).seller →
      updateListingPrice s caller tokenId newPrice =
        (s, some MarketError.NotTokenOwner)) := by
  by_cases hcs : caller = (s.listings tokenId).seller
  · refine ⟨?_, fun hn => absurd hcs hn, ?_, fun hn => absurd hcs hn⟩
    · simp [delistNFT, delistNFTBody, hact, hcs]
    · simp [updateListingPrice, updateListingPriceBody, hact, hcs, hp]
  · have hcs2 : (s.listings tokenId).seller ≠ caller := fun he => hcs he.symm
    refine ⟨?_, fun _ => ?_, ?_, fun _ => ?_⟩
    · simp [delistNFT, delistNFTBody, hact, hcs, hcs2]
    · simp [delistNFT, delistNFTBody, hact, hcs2]
    · simp [updateListingPrice, updateListingPriceBody, hact, hcs, hcs2, hp]
    · simp [updateListingPrice, updateListingPriceBody, hact, hcs2, hp]

/-- Witness for C8: token 0 is listed by 5 but currently owned by 7; the
recorded seller 5 can still delist and reprice, while the current owner 7
is rejected with `NotTokenOwner` on both operations. -/
theorem delist_update_seller_only_witness :
    (delistNFT exTransferred 5 0).2 = none ∧
    delistNFT exTransferred 7 0 = (exTransferred, some MarketError.NotTokenOwner) ∧
    (updateListingPrice exTransferred 5 0 250).2 = none ∧
    updateListingPrice exTransferred 7 0 250 =
      (exTransferred, some MarketError.NotTokenOwner) :=
  ⟨(delist_update_seller_only exTransferred 5 0 250 (by decide) (by decide)).1.mpr
     (by decide),
   (delist_update_seller_only exTransferred 7 0 250 (by decide) (by decide)).2.1
     (by decide),
   (delist_update_seller_only exTransferred 5 0 250 (by decide) (by decide)).2.2.1.mpr
     (by decide),
   (delist_update_seller_only exTransferred 7 0 250 (by decide) (by decide)).2.2.2
     (by decide)⟩

/-- C2: a successful `buyNFT` pays the seller exactly `price - fee` and
leaves the marketplace contract richer by exactly
`fee = price * marketplaceFee / 10000` (integer floor division), for any
state whose fee rate respects the contract's `MAX_FEE` cap and whose
listing parties are distinct from the contract address (as in every
reachable state: the contract never lists or buys for itself). -/
theorem buyNFT_fee_split (env : Env) (s : MarketState)
    (caller value tokenId : Nat)
    (hfee : s.marketplaceFee ≤ 1000)
    (hsm : (s.listings tokenId).seller ≠ s.marketAddr)
    (hcm : caller ≠ s.marketAddr)
    (hsucc : (buyNFT env s caller value tokenId).2 = none) :
    (buyNFT env s caller value tokenId).1.bal (s.listings tokenId).seller =
      s.bal (s.listings tokenId).seller +
        ((s.listings tokenId).price -
          (s.listings tokenId).price * s.marketplaceFee / 10000) ∧
    (buyNFT env s caller value tokenId).1.bal s.marketAddr =
      s.bal s.marketAddr +
        (s.listings tokenId).price * s.marketplaceFee / 10000 := by
  obtain ⟨s', hb⟩ : ∃ s', buyNFTBody env s caller value tokenId = .ok s' := by
    unfold buyNFT at hsucc
    cases hb : buyNFTBody env s caller value tokenId with
    | ok s1 => exact ⟨s1, rfl⟩
    | error e => rw [hb] at hsucc; simp at hsucc
  have hr : (buyNFT env s caller value tokenId).1 = s' := by
    unfold buyNFT; rw [hb]
  rw [hr]
  obtain ⟨hact, hcs, hvp, hpay, _, _, _, _, _, _, hbal⟩ := buyNFTBody_ok hb
  rw [hbal]
  have hfle : (s.listings tokenId).price * s.marketplaceFee / 10000 ≤
      (s.listings tokenId).price := by
    have h1 : (s.listings tokenId).price * s.marketplaceFee ≤
        (s.listings tokenId).price * 10000 :=
      Nat.mul_le_mul_left _ (by omega)
    have h2 : (s.listings tokenId).price * s.marketplaceFee / 10000 ≤
        (s.listings tokenId).price * 10000 / 10000 := Nat.div_le_div_right h1
    simpa using h2
  have hsc : (s.listings tokenId).seller ≠ caller := fun he => hcs he.symm
  have hAs : s.marketAddr ≠ (s.listings tokenId).seller := fun he => hsm he.symm
  have hAc : s.marketAddr ≠ caller := fun he => hcm he.symm
  constructor
  · simp [sendETH, hsm, hsc, hcm]
  · simp [sendETH, hAs, hAc, hsm]
    omega

/-- Witness for C2: buying the concrete listing with price 1000 at the
deployed fee rate of 250 basis points pays the seller exactly 975 and
leaves the marketplace holding exactly 25. -/
theorem buyNFT_fee_split_witness :
    (buyNFT envAll (exListed 1000) 7 1000 0).1.bal 5 = 975 ∧
    (buyNFT envAll (exListed 1000) 7 1000 0).1.bal 2 = 25 := by
  have h := buyNFT_fee_split envAll (exListed 1000) 7 1000 0
    (by decide) (by decide) (by decide) (by decide)
  exact ⟨by simpa [exListed, initState] using h.1,
         by simpa [exListed, initState] using h.2⟩

/-- C9: a successful `mintNFT` assigns the freshly minted token (whose id
is the pre-call counter) to the transaction originator `tx.origin`; when
the marketplace entry point is reached through an intermediary contract
(`caller ≠ origin`), the owner is the originator, not the caller. -/
theorem mintNFT_owner_is_origin (env : Env) (s : MarketState)
    (caller origin : Addr) (uri : String)
    (h : (mintNFT env s caller origin uri).2 = none) :
    (mintNFT env s caller origin uri).1.1.owners
      ((mintNFT env s caller origin uri).1.2) = origin ∧
    (mintNFT env s caller origin uri).1.2 = s.tokenIdCounter ∧
    (caller ≠ origin →
      (mintNFT env s caller origin uri).1.1.owners
        ((mintNFT env s caller origin uri).1.2) ≠ caller) := by
  unfold mintNFT at h ⊢
  cases hb : mintNFTBody env s caller origin uri with
  | error e => rw [hb] at h; simp at h
  | ok pr =>
      obtain ⟨s', tid⟩ := pr
      unfold mintNFTBody mintTo at hb
      split_ifs at hb
      injection hb with hb2
      injection hb2 with hs ht
      subst hs
      subst ht
      refine ⟨by simp, rfl, fun hco => ?_⟩
      intro heq
      simp at heq
      exact hco heq.symm

/-- Witness for C9: contract 9 calls `mintNFT` in a transaction originated
by EOA 4 on a fresh deployment; token 0 is owned by 4, not by 9. -/
theorem mintNFT_owner_is_origin_witness :
    (mintNFT envAll (initState 1 2 (fun _ => 0)) 9 4 "u").1.1.owners
      ((mintNFT envAll (initState 1 2 (fun _ => 0)) 9 4 "u").1.2) = 4 ∧
    (mintNFT envAll (initState 1 2 (fun _ => 0)) 9 4 "u").1.2 = 0 ∧
    (mintNFT envAll (initState 1 2 (fun _ => 0)) 9 4 "u").1.1.owners
      ((mintNFT envAll (initState 1 2 (fun _ => 0)) 9 4 "u").1.2) ≠ 9 := by
  have h := mintNFT_owner_is_origin envAll (initState 1 2 (fun _ => 0)) 9 4 "u"
    (by decide)
  exact ⟨h.1, h.2.1, h.2.2 (by decide)⟩

/-- Counterexample for C7 as stated: `withdrawFees(address(this))` — the
owner naming the marketplace contract itself as recipient — succeeds, yet
the contract balance is NOT reset to zero (the transfer is a self-transfer)
and an immediately following `withdrawFees` succeeds again instead of
failing; so "on success ... resets it to exactly zero, so an immediately
following withdrawFees fails" does not hold for every recipient. -/
theorem withdrawFees_self_recipient_counterexample :
    (withdrawFees envAll (initState 1 2 (fun a => if a = 2 then 25 else 0))
      1 2).2 = none ∧
    (withdrawFees envAll (initState 1 2 (fun a => if a = 2 then 25 else 0))
      1 2).1.bal 2 = 25 ∧
    (withdrawFees envAll
      (withdrawFees envAll (initState 1 2 (fun a => if a = 2 then 25 else 0))
        1 2).1 1 2).2 = none := by
  decide

/-- C7 amended: `withdrawFees(recipient)` fails with the `Ownable`
unauthorized error unless the caller is the owner; fails when the contract
balance is zero and when the recipient rejects the funds (the contract
signals both with its single `TransferFailed` error, playing the roles of
the spec's `NothingToWithdraw` and `PayoutFailed`), leaving the state — in
particular the balance — untouched; and for any recipient OTHER THAN the
marketplace contract itself, success transfers the entire balance to the
recipient and zeroes the contract balance, so an immediately following
`withdrawFees` fails. -/
theorem withdrawFees_spec_amended (env env2 : Env) (s : MarketState)
    (caller recipient r2 : Addr) :
    (caller ≠ s.owner →
      withdrawFees env s caller recipient =
        (s, some MarketError.OwnableUnauthorizedAccount)) ∧
    (caller = s.owner → s.bal s.marketAddr = 0 →
      withdrawFees env s caller recipient =
        (s, some MarketError.TransferFailed)) ∧
    (caller = s.owner → s.bal s.marketAddr ≠ 0 →
      env.acceptsETH recipient = false →
      withdrawFees env s caller recipient =
        (s, some MarketError.TransferFailed)) ∧
    (caller = s.owner → s.bal s.marketAddr ≠ 0 →
      env.acceptsETH recipient = true → recipient ≠ s.marketAddr →
      (withdrawFees env s caller recipient).2 = none ∧
      (withdrawFees env s caller recipient).1.bal recipient =
        s.bal recipient + s.bal s.marketAddr ∧
      (withdrawFees env s caller recipient).1.bal s.marketAddr = 0 ∧
      withdrawFees env2 (withdrawFees env s caller recipient).1 caller r2 =
        ((withdrawFees env s caller recipient).1,
         some MarketError.TransferFailed)) := by
  refine ⟨fun h1 => ?_, fun h1 h2 => ?_, fun h1 h2 h3 => ?_,
    fun h1 h2 h3 h4 => ?_⟩
  · simp [withdrawFees, withdrawFeesBody, h1]
  · simp [withdrawFees, withdrawFeesBody, h1, h2]
  · simp [withdrawFees, withdrawFeesBody, h1, h2, h3]
  · have hAr : s.marketAddr ≠ recipient := fun he => h4 he.symm
    have hres : withdrawFees env s caller recipient =
        (sendETH s s.marketAddr recipient (s.bal s.marketAddr), none) := by
      simp [withdrawFees, withdrawFeesBody, h1, h2, h3]
    rw [hres]
    refine ⟨rfl, ?_, ?_, ?_⟩
    · simp [sendETH, h4, hAr]
    · simp [sendETH, h4, hAr]
    · have hbz : (sendETH s s.marketAddr recipient
          (s.bal s.marketAddr)).bal s.marketAddr = 0 := by
        simp [sendETH, h4, hAr]
      simp [withdrawFees, withdrawFeesBody, h1, hbz]

/-- Witness for C7 (amended): on a fresh deployment holding 25 wei of
fees, the owner withdraws to EOA 3: the call succeeds, 3 receives 25, the
contract balance becomes 0, and a second withdrawal fails. -/
theorem withdrawFees_spec_amended_witness :
    (withdrawFees envAll (initState 1 2 (fun a => if a = 2 then 25 else 0))
      1 3).2 = none ∧
    (withdrawFees envAll (initState 1 2 (fun a => if a = 2 then 25 else 0))
      1 3).1.bal 3 = 25 ∧
    (withdrawFees envAll (initState 1 2 (fun a => if a = 2 then 25 else 0))
      1 3).1.bal 2 = 0 ∧
    withdrawFees envAll
      (withdrawFees envAll (initState 1 2 (fun a => if a = 2 then 25 else 0))
        1 3).1 1 3 =
      ((withdrawFees envAll (initState 1 2 (fun a => if a = 2 then 25 else 0))
        1 3).1, some MarketError.TransferFailed) := by
  have h := (withdrawFees_spec_amended envAll envAll
    (initState 1 2 (fun a => if a = 2 then 25 else 0)) 1 3 3).2.2.2
    (by decide) (by decide) (by decide) (by decide)
  exact ⟨h.1, by simpa [initState] using h.2.1,
    by simpa [initState] using h.2.2.1, h.2.2.2⟩

lemma activeOf_cons_pos {s : MarketState} {id : Nat}
    (h : (s.listings id).isActive = true) (rest : List Nat) :
    activeOf s (id :: rest) =
      (id, (s.listings id).seller, (s.listings id).price) :: activeOf s rest := by
  simp [activeOf, h]

lemma activeOf_cons_neg {s : MarketState} {id : Nat}
    (h : ¬(s.listings id).isActive = true) (rest : List Nat) :
    activeOf s (id :: rest) = activeOf s rest := by
  simp [activeOf, h]

lemma gatherActive_eq (s : MarketState) (ids : List Nat) (start size : Nat) :
    ∀ cur res, res = cur - start →
      gatherActive s ids start size cur res =
        ((activeOf s ids).drop (start - cur)).take (size - res) := by
  induction ids with
  | nil => intro cur res _; simp [gatherActive, activeOf]
  | cons id rest ih =>
      intro cur res hinv
      by_cases hsz : res < size
      · by_cases hact : (s.listings id).isActive = true
        · by_cases hcur : start ≤ cur
          · have hd0 : start - cur = 0 := Nat.sub_eq_zero_of_le hcur
            have hd1 : start - (cur + 1) = 0 := by omega
            have hs1 : size - res = (size - (res + 1)) + 1 := by omega
            simp only [gatherActive]
            rw [if_pos hsz, if_pos hact, if_pos hcur, activeOf_cons_pos hact,
              hd0, List.drop_zero, hs1, List.take_succ_cons]
            exact congrArg (List.cons _)
              (by rw [ih (cur + 1) (res + 1) (by omega), hd1, List.drop_zero])
          · have hd : start - cur = (start - (cur + 1)) + 1 := by omega
            simp only [gatherActive]
            rw [if_pos hsz, if_pos hact, if_neg hcur, activeOf_cons_pos hact,
              hd, List.drop_succ_cons]
            exact ih (cur + 1) res (by omega)
        · simp only [gatherActive]
          rw [if_pos hsz, if_neg hact, activeOf_cons_neg hact]
          exact ih cur res hinv
      · have hz : size - res = 0 := by omega
        simp only [gatherActive]
        rw [if_neg hsz, hz, List.take_zero]

lemma activeOf_length (s : MarketState) (ids : List Nat) :
    (activeOf s ids).length = ids.countP fun t => (s.listings t).isActive := by
  induction ids with
  | nil => rfl
  | cons id rest ih =>
      by_cases hact : (s.listings id).isActive = true
      · rw [activeOf_cons_pos hact]
        simp [List.countP_cons, hact, ih]
      · rw [activeOf_cons_neg hact]
        simp only [List.countP_cons, ih]
        simp [Bool.not_eq_true] at hact
        simp [hact]

lemma getActiveListings_map_spec (s : MarketState) (offset limit : Nat) :
    getActiveListings s offset limit =
      ((((activeTriples s).drop offset).take limit).map (fun e => e.1),
       (((activeTriples s).drop offset).take limit).map (fun e => e.2.1),
       (((activeTriples s).drop offset).take limit).map (fun e => e.2.2)) := by
  have hgath : gatherActive s s.listedTokenIds offset
      (min (offset + limit)
        (s.listedTokenIds.countP fun t => (s.listings t).isActive) - offset)
      0 0 = ((activeTriples s).drop offset).take limit := by
    rw [gatherActive_eq s s.listedTokenIds offset _ 0 0 (by omega),
      Nat.sub_zero, Nat.sub_zero]
    have hlen : (activeOf s s.listedTokenIds).length =
        s.listedTokenIds.countP fun t => (s.listings t).isActive :=
      activeOf_length s s.listedTokenIds
    have hdlen : ((activeOf s s.listedTokenIds).drop offset).length =
        (activeOf s s.listedTokenIds).length - offset := List.length_drop offset _
    exact List.take_eq_take.mpr (by omega)
  simp only [getActiveListings]
  rw [hgath]

/-- C6: `getActiveListings(offset, limit)` returns exactly the active
listings in `listedTokenIds` insertion order, skipping the first `offset`
active entries and taking at most `limit` of them (the three arrays are
the componentwise projections of that window), and returns empty arrays
whenever `offset` is at least the active count or `limit` is zero. -/
theorem getActiveListings_paginates (s : MarketState) (offset limit : Nat) :
    getActiveListings s offset limit =
      ((((activeTriples s).drop offset).take limit).map (fun e => e.1),
       (((activeTriples s).drop offset).take limit).map (fun e => e.2.1),
       (((activeTriples s).drop offset).take limit).map (fun e => e.2.2)) ∧
    (getActiveListingCount s ≤ offset →
      getActiveListings s offset limit = ([], [], [])) ∧
    (limit = 0 → getActiveListings s offset limit = ([], [], [])) := by
  have hmain := getActiveListings_map_spec s offset limit
  refine ⟨hmain, fun hoff => ?_, fun h0 => ?_⟩
  · have hnil : (activeTriples s).drop offset = [] := by
      apply List.drop_eq_nil_of_le
      have hlen : (activeTriples s).length =
          s.listedTokenIds.countP fun t => (s.listings t).isActive :=
        activeOf_length s s.listedTokenIds
      have : getActiveListingCount s =
          s.listedTokenIds.countP fun t => (s.listings t).isActive := rfl
      omega
    rw [hmain, hnil]
    simp
  · subst h0
    rw [hmain]
    simp

/-- Witness for C6: on the concrete state with five active listings (ids
0, 2, 3, 4, 5 in listing order), `getActiveListings(2, 2)` returns exactly
the 3rd and 4th active listings — ids 3 and 4 with their sellers and
prices. -/
theorem getActiveListings_paginates_witness :
    getActiveListings exPage 2 2 = ([3, 4], [13, 14], [400, 500]) := by
  rw [(getActiveListings_paginates exPage 2 2).1]
  decide

/-- C10: in every state, `getActiveListingCount()` equals the number of
listing-index entries whose listing is active, and for every `n` at least
that count the three arrays returned by `getActiveListings(0, n)` all have
exactly that length. -/
theorem getActiveListingCount_consistent (s : MarketState) (n : Nat)
    (h : getActiveListingCount s ≤ n) :
    getActiveListingCount s =
      (s.listedTokenIds.filter fun t => (s.listings t).isActive).length ∧
    (getActiveListings s 0 n).1.length = getActiveListingCount s ∧
    (getActiveListings s 0 n).2.1.length = getActiveListingCount s ∧
    (getActiveListings s 0 n).2.2.length = getActiveListingCount s := by
  have hfil : getActiveListingCount s =
      (s.listedTokenIds.filter fun t => (s.listings t).isActive).length :=
    List.countP_eq_length_filter _ _
  have hlen : (activeTriples s).length = getActiveListingCount s :=
    activeOf_length s s.listedTokenIds
  rw [getActiveListings_map_spec s 0 n]
  simp only [List.drop_zero, List.length_map, List.length_take]
  exact ⟨hfil, by omega, by omega, by omega⟩

/-- Witness for C10: on the concrete five-active-listing state, the count
is 5 and `getActiveListings(0, 7)` returns three arrays of length 5. -/
theorem getActiveListingCount_consistent_witness :
    getActiveListingCount exPage =
      (exPage.listedTokenIds.filter fun t => (exPage.listings t).isActive).length ∧
    (getActiveListings exPage 0 7).1.length = getActiveListingCount exPage ∧
    (getActiveListings exPage 0 7).2.1.length = getActiveListingCount exPage ∧
    (getActiveListings exPage 0 7).2.2.length = getActiveListingCount exPage :=
  getActiveListingCount_consistent exPage 7 (by decide)

lemma mintTo_ok {env : Env} {s s1 : MarketState} {spender dst : Nat}
    {uri : String} {tid : Nat}
    (h : mintTo env s spender dst uri = .ok (s1, tid)) :
    tid = s.tokenIdCounter ∧ dst ≠ 0 ∧ s.owners s.tokenIdCounter = 0 ∧
    s1.listedTokenIds = s.listedTokenIds ∧
    s1.hasBeenListed = s.hasBeenListed ∧
    s1.listings = s.listings ∧
    s1.tokenIdCounter = s.tokenIdCounter + 1 ∧
    s1.owners = (fun t => if t = s.tokenIdCounter then dst else s.owners t) := by
  unfold mintTo at h
  split_ifs at h with h1 h2 h3 h4
  injection h with h5
  injection h5 with hs ht
  subst hs
  subst ht
  exact ⟨rfl, h2, not_not.mp h3, rfl, rfl, rfl, rfl, rfl⟩

lemma mintAndListBody_ok {env : Env} {s s' : MarketState} {caller : Nat}
    {uri : String} {price tid : Nat}
    (h : mintAndListBody env s caller uri price = .ok (s', tid)) :
    price ≠ 0 ∧ tid = s.tokenIdCounter ∧ caller ≠ 0 ∧
    s.owners s.tokenIdCounter = 0 ∧
    s'.listedTokenIds = s.listedTokenIds ++ [tid] ∧
    s'.tokenIdCounter = s.tokenIdCounter + 1 ∧
    s'.hasBeenListed = (fun t => if t = tid then true else s.hasBeenListed t) ∧
    s'.owners = (fun t => if t = tid then caller else s.owners t) ∧
    s'.listings =
      (fun t => if t = tid then ⟨caller, price, true⟩ else s.listings t) := by
  unfold mintAndListBody at h
  split_ifs at h with hp
  split at h
  · simp at h
  · rename_i s1 tid1 hm
    injection h with h5
    injection h5 with hs ht
    subst hs
    subst ht
    obtain ⟨htid, hc0, how0, hids, hhb, hlst, hcnt, hown⟩ := mintTo_ok hm
    subst htid
    refine ⟨hp, rfl, hc0, how0, ?_, ?_, ?_, ?_, ?_⟩
    · show s1.listedTokenIds ++ _ = _
      rw [hids]
    · show s1.tokenIdCounter = _
      rw [hcnt]
    · show (fun t => if t = _ then true else s1.hasBeenListed t) = _
      rw [hhb]
    · show s1.owners = _
      rw [hown]
    · show (fun t => if t = _ then _ else s1.listings t) = _
      rw [hlst]

lemma listNFTBody_ok {s s' : MarketState} {caller tokenId price : Nat}
    (h : listNFTBody s caller tokenId price = .ok s') :
    s.owners tokenId ≠ 0 ∧
    s'.listings =
      (fun t => if t = tokenId then ⟨caller, price, true⟩ else s.listings t) ∧
    s'.tokenIdCounter = s.tokenIdCounter ∧
    s'.owners = s.owners ∧
    ((s.hasBeenListed tokenId = true ∧
      s'.listedTokenIds = s.listedTokenIds ∧
      s'.hasBeenListed = s.hasBeenListed) ∨
     (s.hasBeenListed tokenId = false ∧
      s'.listedTokenIds = s.listedTokenIds ++ [tokenId] ∧
      s'.hasBeenListed =
        (fun t => if t = tokenId then true else s.hasBeenListed t))) := by
  simp only [listNFTBody] at h
  split_ifs at h with hp hz hown happ hhb
  · injection h with h2
    subst h2
    exact ⟨hz, rfl, rfl, rfl, Or.inl ⟨by simpa using hhb, rfl, rfl⟩⟩
  · injection h with h2
    subst h2
    refine ⟨hz, rfl, rfl, rfl, Or.inr ⟨?_, rfl, rfl⟩⟩
    simpa using hhb

lemma applyOp_inv (env : Env) (s : MarketState) (op : Op)
    (hInv : IndexInv s) : IndexInv (applyOp env s op) := by
  obtain ⟨hnd, hmem, hlt, hownlt, hact⟩ := hInv
  cases op with
  | mintAndList c u p =>
      simp only [applyOp]
      cases hm : mintAndListBody env s c u p with
      | error e => exact ⟨hnd, hmem, hlt, hownlt, hact⟩
      | ok pr =>
          obtain ⟨s', tid⟩ := pr
          obtain ⟨_, htid, hc0, _, hids, hcnt, hhb, hown, hlst⟩ :=
            mintAndListBody_ok hm
          subst htid
          have hnin : s.tokenIdCounter ∉ s.listedTokenIds :=
            fun hin => absurd (hlt _ hin) (by omega)
          refine ⟨?_, ?_, ?_, ?_, ?_⟩
          · rw [hids, List.nodup_append]
            exact ⟨hnd, List.nodup_singleton _,
              fun x hx hx1 => by simp at hx1; subst hx1; exact hnin hx⟩
          · intro t
            rw [hids]
            by_cases ht : t = s.tokenIdCounter
            · subst ht; simp [hhb]
            · rw [hhb]; simpa [ht] using hmem t
          · intro t ht
            rw [hcnt]
            rw [hids] at ht
            simp at ht
            rcases ht with ht | ht
            · have := hlt t ht; omega
            · omega
          · intro t hto
            rw [hcnt]
            rw [hown] at hto
            by_cases ht : t = s.tokenIdCounter
            · omega
            · simp [ht] at hto
              have := hownlt t hto; omega
          · intro t hactv
            rw [hlst] at hactv
            rw [hhb]
            by_cases ht : t = s.tokenIdCounter
            · simp [ht]
            · simp [ht] at hactv ⊢
              exact hact t hactv
  | listNFT c tid p =>
      simp only [applyOp]
      cases hm : listNFTBody s c tid p with
      | error e => exact ⟨hnd, hmem, hlt, hownlt, hact⟩
      | ok s' =>
          obtain ⟨hown0, hlst, hcnt, hownEq, hdisj⟩ := listNFTBody_ok hm
          rcases hdisj with ⟨hhb1, hids, hhbEq⟩ | ⟨hhb0, hids, hhbEq⟩
          · refine ⟨by rw [hids]; exact hnd, ?_, ?_, ?_, ?_⟩
            · intro t; rw [hhbEq, hids]; exact hmem t
            · intro t ht; rw [hcnt]; rw [hids] at ht; exact hlt t ht
            · intro t h0; rw [hcnt]; rw [hownEq] at h0; exact hownlt t h0
            · intro t hactv
              rw [hlst] at hactv
              rw [hhbEq]
              by_cases ht : t = tid
              · subst ht; exact hhb1
              · simp [ht] at hactv
                exact hact t hactv
          · have hnin : tid ∉ s.listedTokenIds :=
              fun hin => absurd ((hmem tid).mpr hin) (by simp [hhb0])
            have htlt : tid < s.tokenIdCounter := hownlt tid hown0
            refine ⟨?_, ?_, ?_, ?_, ?_⟩
            · rw [hids, List.nodup_append]
              exact ⟨hnd, List.nodup_singleton _,
                fun x hx hx1 => by simp at hx1; subst hx1; exact hnin hx⟩
            · intro t
              rw [hids]
              by_cases ht : t = tid
              · subst ht; simp [hhbEq]
              · rw [hhbEq]; simpa [ht] using hmem t
            · intro t ht
              rw [hcnt]
              rw [hids] at ht
              simp at ht
              rcases ht with ht | ht
              · exact hlt t ht
              · subst ht; exact htlt
            · intro t h0; rw [hcnt]; rw [hownEq] at h0; exact hownlt t h0
            · intro t hactv
              rw [hlst] at hactv
              rw [hhbEq]
              by_cases ht : t = tid
              · simp [ht]
              · simp [ht] at hactv ⊢
                exact hact t hactv

lemma applyOp_mem (env : Env) (s : MarketState) (op : Op) {t : Nat}
    (h : t ∈ s.listedTokenIds) : t ∈ (applyOp env s op).listedTokenIds := by
  cases op with
  | mintAndList c u p =>
      simp only [applyOp]
      cases hm : mintAndListBody env s c u p with
      | error e => exact h
      | ok pr =>
          obtain ⟨s', tid⟩ := pr
          obtain ⟨_, _, _, _, hids, _⟩ := mintAndListBody_ok hm
          rw [hids]
          exact List.mem_append_left _ h
  | listNFT c tid p =>
      simp only [applyOp]
      cases hm : listNFTBody s c tid p with
      | error e => exact h
      | ok s' =>
          obtain ⟨_, _, _, _, hdisj⟩ := listNFTBody_ok hm
          rcases hdisj with ⟨_, hids, _⟩ | ⟨_, hids, _⟩
          · rw [hids]; exact h
          · rw [hids]; exact List.mem_append_left _ h

lemma runOps_inv (env : Env) (s : MarketState) (ops : List Op)
    (h : IndexInv s) : IndexInv (runOps env s ops) := by
  induction ops generalizing s with
  | nil => exact h
  | cons op rest ih => exact ih _ (applyOp_inv env s op h)

lemma runOps_mem (env : Env) (s : MarketState) (ops : List Op) {t : Nat}
    (h : t ∈ s.listedTokenIds) : t ∈ (runOps env s ops).listedTokenIds := by
  induction ops generalizing s with
  | nil => exact h
  | cons op rest ih => exact ih _ (applyOp_mem env s op h)

lemma indexInv_initState (deployer marketAddr : Addr) (bal0 : Addr → Nat) :
    IndexInv (initState deployer marketAddr bal0) := by
  refine ⟨List.nodup_nil, ?_, ?_, ?_, ?_⟩
  · intro t; simp [initState]
  · intro t ht; simp [initState] at ht
  · intro t h0; simp [initState] at h0
  · intro t hactv; simp [initState] at hactv

lemma indexInv_exListed (p : Nat) : IndexInv (exListed p) := by
  refine ⟨?_, ?_, ?_, ?_, ?_⟩
  · simp [exListed, initState]
  · intro t
    by_cases h : t = 0 <;> simp [exListed, initState, h]
  · intro t ht
    simp [exListed, initState] at ht
    subst ht
    simp [exListed, initState]
  · intro t h0
    by_cases h : t = 0
    · subst h
      simp [exListed, initState]
    · simp [exListed, initState, h] at h0
  · intro t hactv
    by_cases h : t = 0
    · simp [exListed, initState, h]
    · simp [exListed, initState, h] at hactv

/-- C5: across any sequence of `mintAndList` and `listNFT` transactions
from a state satisfying the contract's index invariant (as the freshly
deployed state does), any asset whose listing is active at some
intermediate point appears exactly once in the final `listedTokenIds`
index: re-listing an already-indexed asset never appends a duplicate
entry, and freshly minted ids are always new to the index. -/
theorem listing_index_no_duplicates (env : Env) (s0 : MarketState)
    (h0 : IndexInv s0) (ops1 ops2 : List Op) (t : Nat)
    (hactive : ((runOps env s0 ops1).listings t).isActive = true) :
    (runOps env s0 (ops1 ++ ops2)).listedTokenIds.count t = 1 := by
  have h1 : IndexInv (runOps env s0 ops1) := runOps_inv env s0 ops1 h0
  have hmemt : t ∈ (runOps env s0 ops1).listedTokenIds :=
    (h1.2.1 t).mp (h1.2.2.2.2 t hactive)
  have hsplit : runOps env s0 (ops1 ++ ops2) =
      runOps env (runOps env s0 ops1) ops2 := by
    simp [runOps, List.foldl_append]
  rw [hsplit]
  have hF : IndexInv (runOps env (runOps env s0 ops1) ops2) :=
    runOps_inv env _ ops2 h1
  exact List.count_eq_one_of_mem hF.1 (runOps_mem env _ ops2 hmemt)

/-- Witness for C5: token 0 is already listed (and active) in the concrete
state; a successful re-listing of token 0 at a new price leaves it with
exactly one index entry. -/
theorem listing_index_no_duplicates_witness :
    (runOps envAll (exListed 100)
      ([] ++ [Op.listNFT 5 0 200])).listedTokenIds.count 0 = 1 :=
  listing_index_no_duplicates envAll (exListed 100) (indexInv_exListed 100)
    [] [Op.listNFT 5 0 200] 0 (by decide)
